import Mathlib

/-!
Shallow embedding of the portfolio metrics of `app_dividendos.py`.

Conventions of the embedding:
* dates are absolute day numbers (`ℕ`); the calendar year of a day is
  `d / 365` (a uniform 365-day calendar, which keeps the only property the
  code relies on: the year is monotone in the date);
* monetary amounts, prices and weights are `ℚ` (the Python floats);
* a pandas `Series` of dividends or closes is a `List (ℕ × ℚ)` of
  (date, value) pairs with distinct dates, as delivered by the data client;
* `None` / a failed `float(...)` parse is `Option.none`;
* a raised exception that the code does not catch is an `Except.error`.
-/

namespace AppDividendos

/-! ## Portfolio loader (`CARTEIRA_ACOES` construction, lines 52-72) -/

/-- Python dict assignment `CARTEIRA_ACOES[ticker] = peso`: replace the value
if the key is present, otherwise append the new binding. -/
def upsert : List (String × ℚ) → String → ℚ → List (String × ℚ)
  | [], k, v => [(k, v)]
  | e :: rest, k, v => if e.1 = k then (k, v) :: rest else e :: upsert rest k v

/-- Python dict lookup on the association-list representation. -/
def lookupW : List (String × ℚ) → String → Option ℚ
  | [], _ => none
  | e :: rest, t => if e.1 = t then some e.2 else lookupW rest t

/-- One iteration of the upload loop (lines 53-63): a row whose weight cell
parsed (`some peso`) and is positive is stored in the dict and added to
`total_pesos`; an unparsable (`none`) or non-positive weight is skipped with
a warning. -/
def loadStep (st : List (String × ℚ) × ℚ) (row : String × Option ℚ) :
    List (String × ℚ) × ℚ :=
  match row.2 with
  | some peso => if 0 < peso then (upsert st.1 row.1 peso, st.2 + peso) else st
  | none => st

/-- The accumulation phase of the loader: the dict `CARTEIRA_ACOES` (before
normalization) together with `total_pesos`. -/
def loadRows (rows : List (String × Option ℚ)) : List (String × ℚ) × ℚ :=
  rows.foldl loadStep ([], 0)

/-- The loaded portfolio after the normalization step (lines 66-72):
if `total_pesos > 0` and `abs(total_pesos - 1.0) > 0.01` every stored weight
is divided by `total_pesos`; else if `total_pesos == 0` with stored tickers
the whole carteira is cleared. -/
def carteira_acoes (rows : List (String × Option ℚ)) : List (String × ℚ) :=
  if 0 < (loadRows rows).2 ∧ 1 / 100 < |(loadRows rows).2 - 1| then
    (loadRows rows).1.map (fun e => (e.1, e.2 / (loadRows rows).2))
  else if (loadRows rows).2 = 0 ∧ (loadRows rows).1 ≠ [] then []
  else (loadRows rows).1

/-- Sum of the weights stored in a carteira. -/
def peso_total (m : List (String × ℚ)) : ℚ := (m.map (fun e => e.2)).sum

/-- Specification-side description of `total_pesos`: the sum of every valid
(parsed, positive) weight cell, one summand per row, duplicates included. -/
def validWeightsSum (rows : List (String × Option ℚ)) : ℚ :=
  (rows.filterMap (fun row =>
    match row.2 with
    | some p => if 0 < p then some p else none
    | none => none)).sum

/-- Specification-side description of the stored weight of a ticker: the
weight of the LAST valid row carrying that ticker (later rows override). -/
def lastValidWeight : List (String × Option ℚ) → String → Option ℚ
  | [], _ => none
  | row :: rest, t =>
    match lastValidWeight rest t with
    | some p => some p
    | none =>
      if row.1 = t then
        match row.2 with
        | some p => if 0 < p then some p else none
        | none => none
      else none

/-- Boolean row validation: the weight cell parsed and is positive. -/
def isValidRow (row : String × Option ℚ) : Bool :=
  match row.2 with
  | some p => decide (0 < p)
  | none => false

/-! ## Display rounding

Python `f"{x:.Nf}"` rounds half to even; `roundHalfEven` reproduces it on
exact rationals. -/

/-- Round to the nearest integer, ties to the even neighbour. -/
def roundHalfEven (q : ℚ) : ℤ :=
  if q - ⌊q⌋ < 1 / 2 then ⌊q⌋
  else if 1 / 2 < q - ⌊q⌋ then ⌊q⌋ + 1
  else if Even ⌊q⌋ then ⌊q⌋ else ⌊q⌋ + 1

/-- The integer percentage printed by the table column
`"Peso": f"{peso*100:.0f}%"` (line 208). -/
def peso_display_pct (p : ℚ) : ℤ := roundHalfEven (p * 100)

/-! ## Equal-weight rebalancing table (lines 316-327)

`Peso Atual (%)` is parsed back from the rounded `Peso` string, so it is the
integer `peso_display_pct`; `Peso Sugerido (%)` is `1.0/num_acoes * 100`;
`Diferença (%)` is the signed difference suggested minus current. Each output
row is (atual, sugerido, diferença). -/
def rebalanceamento (pesos : List ℚ) : List (ℚ × ℚ × ℚ) :=
  pesos.map (fun p =>
    ((peso_display_pct p : ℚ),
     1 / (pesos.length : ℚ) * 100,
     1 / (pesos.length : ℚ) * 100 - (peso_display_pct p : ℚ)))

/-! ## Date-indexed series -/

/-- Value of a series at a date (0 when the date is absent). -/
def evalS (s : List (ℕ × ℚ)) (d : ℕ) : ℚ :=
  ((s.filter (fun e => decide (e.1 = d))).map (fun e => e.2)).sum

/-- `dividends * peso` (line 543): scale every amount. -/
def scaleSeries (w : ℚ) (s : List (ℕ × ℚ)) : List (ℕ × ℚ) :=
  s.map (fun e => (e.1, e.2 * w))

/-- `Series.add(other, fill_value=0)` (line 544): union of the dates, values
added with a missing date contributing 0. -/
def addSeries (a b : List (ℕ × ℚ)) : List (ℕ × ℚ) :=
  ((a.map (fun e => e.1) ++ b.map (fun e => e.1)).dedup).map
    (fun d => (d, evalS a d + evalS b d))

/-- One iteration of the cash-flow loop (lines 539-544): an empty dividend
series is skipped, otherwise the weighted series is added into the
accumulator. -/
def combine_step (acc : List (ℕ × ℚ)) (x : ℚ × List (ℕ × ℚ)) :
    List (ℕ × ℚ) :=
  if x.2.isEmpty then acc else addSeries acc (scaleSeries x.1 x.2)

/-- `dividendos_combinados` (lines 537-544): fold of the weighted dividend
series of every successfully fetched position, starting from the empty
series. The input pairs each position weight with its dividend series. -/
def dividendos_combinados (portfolio : List (ℚ × List (ℕ × ℚ))) :
    List (ℕ × ℚ) :=
  portfolio.foldl combine_step []

/-! ## Trailing dividend yield (lines 158-173) -/

/-- `dividends_12m` (line 164): total of the entries dated within the last
365 days, bounds inclusive. -/
def dividendos_12m (dividends : List (ℕ × ℚ)) (hoje : ℕ) : ℚ :=
  ((dividends.filter
      (fun e => decide (hoje - 365 ≤ e.1) && decide (e.1 ≤ hoje))).map
    (fun e => e.2)).sum

/-- The value stored in `dividend_yields_dict` (lines 166-173): when the
price is present and positive, `(dividends_12m / current_price) * 100`;
in every other case the literal `0`. -/
def dy_entry (current_price : Option ℚ) (dividends12m : ℚ) : ℚ :=
  match current_price with
  | some p => if 0 < p then dividends12m / p * 100 else 0
  | none => 0

/-- The `Dividend Yield` cell of the portfolio table (line 210):
`f"{dy:.2f}%" if current_price else "N/A"` — the cell is `none` ("N/A")
exactly when the fetched price is falsy (absent or zero), and otherwise
shows the `dy` value. -/
def tabela_dy (current_price : Option ℚ) (dividends12m : ℚ) : Option ℚ :=
  match current_price with
  | some p => if p ≠ 0 then some (dy_entry (some p) dividends12m) else none
  | none => none

/-! ## Dividend growth (CAGR), `calcular_crescimento_dividendos`
(lines 100-137) -/

/-- Calendar year of a day number (uniform 365-day calendar). -/
def yearOf (d : ℕ) : ℕ := d / 365

/-- `dividends_no_periodo` (line 112): entries dated on or after
`hoje - years*365`. -/
def filtered_window (s : List (ℕ × ℚ)) (hoje years : ℕ) : List (ℕ × ℚ) :=
  s.filter (fun e => decide (hoje - years * 365 ≤ e.1))

/-- `index.min()` of a series (0 on an empty series, which the code never
reaches thanks to its emptiness guard). -/
def minDate : List (ℕ × ℚ) → ℕ
  | [] => 0
  | e :: rest => (rest.map (fun x => x.1)).foldl min e.1

/-- `index.max()` of a series. -/
def maxDate : List (ℕ × ℚ) → ℕ
  | [] => 0
  | e :: rest => (rest.map (fun x => x.1)).foldl max e.1

/-- `primeiro_ano_com_dividendo` (line 119). -/
def primeiro_ano (s : List (ℕ × ℚ)) (hoje years : ℕ) : ℕ :=
  yearOf (minDate (filtered_window s hoje years))

/-- `ultimo_ano_com_dividendo` (line 120). -/
def ultimo_ano (s : List (ℕ × ℚ)) (hoje years : ℕ) : ℕ :=
  yearOf (maxDate (filtered_window s hoje years))

/-- `total_dividendo_inicio` (line 123): windowed total of the earliest
year present in the window. -/
def total_dividendo_inicio (s : List (ℕ × ℚ)) (hoje years : ℕ) : ℚ :=
  (((filtered_window s hoje years).filter
      (fun e => decide (yearOf e.1 = primeiro_ano s hoje years))).map
    (fun e => e.2)).sum

/-- `total_dividendo_fim` (line 124): windowed total of the latest year
present in the window. -/
def total_dividendo_fim (s : List (ℕ × ℚ)) (hoje years : ℕ) : ℚ :=
  (((filtered_window s hoje years).filter
      (fun e => decide (yearOf e.1 = ultimo_ano s hoje years))).map
    (fun e => e.2)).sum

/-- The guard structure of `calcular_crescimento_dividendos`: `none` is the
string `"N/A"`; on success it returns the two yearly totals and
`num_periodos`, from which the caller forms the CAGR. The four `if`s mirror
lines 101, 114, 127 and 132 of the source in order. -/
def crescimento_core (s : List (ℕ × ℚ)) (hoje years : ℕ) :
    Option (ℚ × ℚ × ℕ) :=
  if s.isEmpty ∨ s.length < 2 then none
  else if filtered_window s hoje years = [] then none
  else if total_dividendo_inicio s hoje years ≤ 0 ∨
      total_dividendo_fim s hoje years ≤ 0 ∨
      ultimo_ano s hoje years - primeiro_ano s hoje years < 1 then none
  else if 0 < ultimo_ano s hoje years - primeiro_ano s hoje years then
    some (total_dividendo_inicio s hoje years,
          total_dividendo_fim s hoje years,
          ultimo_ano s hoje years - primeiro_ano s hoje years)
  else none

/-- `calcular_crescimento_dividendos` (lines 100-137): `none` for `"N/A"`,
otherwise the CAGR value
`((total_fim / total_inicio) ** (1 / num_periodos)) - 1` (line 134). -/
noncomputable def calcular_crescimento_dividendos
    (s : List (ℕ × ℚ)) (hoje years : ℕ) : Option ℝ :=
  (crescimento_core s hoje years).map
    (fun x => ((x.2.1 / x.1 : ℚ) : ℝ) ^ ((1 : ℝ) / (x.2.2 : ℕ)) - 1)

/-- Round a real to the nearest integer, ties to even (Python float
formatting). -/
noncomputable def roundHalfEvenR (x : ℝ) : ℤ :=
  if x - ⌊x⌋ < 1 / 2 then ⌊x⌋
  else if 1 / 2 < x - ⌊x⌋ then ⌊x⌋ + 1
  else if Even ⌊x⌋ then ⌊x⌋ else ⌊x⌋ + 1

/-- Numeric value of `f"{x:.2f}"`: the argument rounded to two decimals. -/
noncomputable def display2dec (x : ℝ) : ℚ := (roundHalfEvenR (x * 100) : ℚ) / 100

/-! ## Portfolio vs. benchmark performance (lines 495-511) -/

/-- Insertion of a date into an ascending list. -/
def insertSorted (d : ℕ) : List ℕ → List ℕ
  | [] => [d]
  | x :: xs => if d ≤ x then d :: x :: xs else x :: insertSorted d xs

/-- Ascending insertion sort, standing in for the sorted DatetimeIndex that
`pd.concat` produces. -/
def sortDates : List ℕ → List ℕ
  | [] => []
  | x :: xs => insertSorted x (sortDates xs)

/-- The index surviving `pd.concat(..., axis=1).dropna()` (lines 501-502):
the dates present in every column, ascending. -/
def common_dates (cols : List (List (ℕ × ℚ))) : List ℕ :=
  sortDates
    (((cols.map (fun c => c.map (fun e => e.1))).flatten).dedup.filter
      (fun d => cols.all (fun c => c.any (fun e => decide (e.1 = d)))))

/-- `dados_combinados` (lines 501-502): one row per common date, one value
per column. -/
def dados_combinados (cols : List (List (ℕ × ℚ))) : List (ℕ × List ℚ) :=
  (common_dates cols).map (fun d => (d, cols.map (fun c => evalS c d)))

/-- `dados_normalizados = (dados_combinados / dados_combinados.iloc[0]) * 100`
(line 505). `iloc[0]` of an empty frame raises `IndexError`; the code has no
guard for that, so the error is the result. -/
def dados_normalizados (cols : List (List (ℕ × ℚ))) :
    Except String (List (ℕ × List ℚ)) :=
  match dados_combinados cols with
  | [] => Except.error "IndexError"
  | first :: rest =>
    Except.ok ((first :: rest).map
      (fun r => (r.1, (r.2.zip first.2).map (fun p => p.1 / p.2 * 100))))

/-- The performance block (lines 495-511): skipped entirely (`none`, the
warning path) when `precos_fechamento` has no columns, otherwise the outcome
of the normalization over the portfolio columns plus the benchmark column. -/
def desempenho_carteira (precos_fechamento : List (String × List (ℕ × ℚ)))
    (hist_ibov : List (ℕ × ℚ)) :
    Option (Except String (List (ℕ × List ℚ))) :=
  if precos_fechamento.isEmpty then none
  else some (dados_normalizados
    (precos_fechamento.map (fun e => e.2) ++ [hist_ibov]))

/-! ## Weighted portfolio yield for the narrative prompt
(`gerar_prompt_ia`, lines 426-444) -/

/-- One iteration of the prompt loop (lines 432-439): a row whose ticker is
present in `dividend_yields_dict` contributes `dy * peso` to the numerator
and `peso` to the denominator; other rows are skipped. -/
def dyp_step (dy_dict : List (String × ℚ)) (acc : ℚ × ℚ)
    (row : String × ℚ) : ℚ × ℚ :=
  match lookupW dy_dict row.1 with
  | some dy => (acc.1 + dy * row.2, acc.2 + row.2)
  | none => acc

/-- `dy_ponderado_final` (lines 426-444): the fold over the table rows,
then division by `total_peso` only when it is positive, else `0`. -/
def dy_ponderado_final (df_rows : List (String × ℚ))
    (dy_dict : List (String × ℚ)) : ℚ :=
  if 0 < (df_rows.foldl (dyp_step dy_dict) (0, 0)).2 then
    (df_rows.foldl (dyp_step dy_dict) (0, 0)).1 /
      (df_rows.foldl (dyp_step dy_dict) (0, 0)).2
  else 0

/-- Specification-side: the table rows whose ticker the yield map knows. -/
def matched_rows (df_rows : List (String × ℚ))
    (dy_dict : List (String × ℚ)) : List (String × ℚ) :=
  df_rows.filter (fun row => (lookupW dy_dict row.1).isSome)

/-- Specification-side numerator: Σ yield × weight over the matched rows. -/
def matched_num (df_rows : List (String × ℚ))
    (dy_dict : List (String × ℚ)) : ℚ :=
  ((matched_rows df_rows dy_dict).map
    (fun row => ((lookupW dy_dict row.1).getD 0) * row.2)).sum

/-- Specification-side denominator: Σ weight over the matched rows. -/
def matched_den (df_rows : List (String × ℚ))
    (dy_dict : List (String × ℚ)) : ℚ :=
  ((matched_rows df_rows dy_dict).map (fun row => row.2)).sum

end AppDividendos

namespace AppDividendos

/-! ## Helper lemmas -/

/-- Folding `min` from a smaller seed stays below folding `max` from a
larger seed. -/
theorem foldl_min_le_foldl_max (ds : List ℕ) :
    ∀ a b : ℕ, a ≤ b → ds.foldl min a ≤ ds.foldl max b := by
  induction ds with
  | nil => intro a b h; exact h
  | cons d t ih =>
    intro a b h
    exact ih _ _ (le_trans (min_le_left a d) (le_trans h (le_max_left b d)))

/-- The minimal date of a nonempty series is at most its maximal date. -/
theorem minDate_le_maxDate (w : List (ℕ × ℚ)) (h : w ≠ []) :
    minDate w ≤ maxDate w := by
  cases w with
  | nil => exact absurd rfl h
  | cons e rest => exact foldl_min_le_foldl_max _ _ _ le_rfl

/-- The earliest year present in the window is at most the latest year. -/
theorem primeiro_le_ultimo (s : List (ℕ × ℚ)) (hoje years : ℕ)
    (h : filtered_window s hoje years ≠ []) :
    primeiro_ano s hoje years ≤ ultimo_ano s hoje years :=
  Nat.div_le_div_right (minDate_le_maxDate _ h)

/-- When every guard of `calcular_crescimento_dividendos` passes, the core
returns the two yearly totals and the year span. -/
theorem crescimento_core_eq_some (s : List (ℕ × ℚ)) (hoje years : ℕ)
    (hlen : 2 ≤ s.length) (hw : filtered_window s hoje years ≠ [])
    (hi : 0 < total_dividendo_inicio s hoje years)
    (hf : 0 < total_dividendo_fim s hoje years)
    (hy : primeiro_ano s hoje years ≠ ultimo_ano s hoje years) :
    crescimento_core s hoje years
      = some (total_dividendo_inicio s hoje years,
              total_dividendo_fim s hoje years,
              ultimo_ano s hoje years - primeiro_ano s hoje years) := by
  have hle := primeiro_le_ultimo s hoje years hw
  unfold crescimento_core
  rw [if_neg, if_neg hw, if_neg, if_pos]
  · omega
  · push_neg
    refine ⟨hi, hf, ?_⟩
    omega
  · push_neg
    refine ⟨fun hnil => ?_, by omega⟩
    rw [List.isEmpty_iff.mp hnil] at hlen
    simp at hlen

/-- Rational bounds on the square root of two, tight enough to settle its
two-decimal rounding. -/
theorem sqrt_two_bounds :
    (14142 / 10000 : ℝ) ≤ Real.sqrt 2 ∧ Real.sqrt 2 < 141425 / 100000 := by
  have h := Real.sq_sqrt (show (0:ℝ) ≤ 2 by norm_num)
  have hn := Real.sqrt_nonneg 2
  constructor <;> nlinarith

/-- The CAGR of a doubling over two periods prints as 41.42 percent. -/
theorem display2dec_sqrt2 : display2dec (100 * (Real.sqrt 2 - 1)) = 2071 / 50 := by
  obtain ⟨hl, hu⟩ := sqrt_two_bounds
  have hfloor : ⌊(100 * (Real.sqrt 2 - 1)) * 100⌋ = (4142 : ℤ) := by
    rw [Int.floor_eq_iff]
    constructor
    · push_cast
      nlinarith
    · push_cast
      nlinarith
  unfold display2dec roundHalfEvenR
  rw [hfloor, if_pos]
  · norm_num
  · push_cast
    nlinarith

/-- Unfolding `evalS` over a cons cell. -/
theorem evalS_cons (e : ℕ × ℚ) (s : List (ℕ × ℚ)) (d : ℕ) :
    evalS (e :: s) d = (if e.1 = d then e.2 else 0) + evalS s d := by
  by_cases h : e.1 = d <;> simp [evalS, List.filter_cons, h]

/-- A date absent from a series evaluates to zero. -/
theorem evalS_eq_zero (s : List (ℕ × ℚ)) (d : ℕ)
    (h : d ∉ s.map (fun e => e.1)) : evalS s d = 0 := by
  induction s with
  | nil => rfl
  | cons e t ih =>
    simp only [List.map_cons, List.mem_cons] at h
    push_neg at h
    rw [evalS_cons, if_neg (fun hh => h.1 hh.symm), ih h.2, add_zero]

/-- Evaluating a series built from distinct dates by tabulating a
function. -/
theorem evalS_map_pair (ds : List ℕ) (f : ℕ → ℚ) (h : ds.Nodup) (d : ℕ) :
    evalS (ds.map (fun x => (x, f x))) d = if d ∈ ds then f d else 0 := by
  induction ds with
  | nil => simp [evalS]
  | cons x xs ih =>
    rcases List.nodup_cons.mp h with ⟨hx, hxs⟩
    rw [List.map_cons, evalS_cons]
    by_cases hd : x = d
    · subst hd
      rw [if_pos rfl, ih hxs, if_neg hx, if_pos (List.mem_cons_self _ _), add_zero]
    · rw [if_neg hd, ih hxs, zero_add]
      by_cases hm : d ∈ xs
      · rw [if_pos hm, if_pos (List.mem_cons_of_mem _ hm)]
      · rw [if_neg hm, if_neg ?_]
        rw [List.mem_cons]
        push_neg
        exact ⟨fun hh => hd hh.symm, hm⟩

/-- The pandas-style add with `fill_value=0` is pointwise addition. -/
theorem evalS_addSeries (a b : List (ℕ × ℚ)) (d : ℕ) :
    evalS (addSeries a b) d = evalS a d + evalS b d := by
  unfold addSeries
  rw [evalS_map_pair _ _ (List.nodup_dedup _) d]
  by_cases h : d ∈ (a.map (fun e => e.1) ++ b.map (fun e => e.1)).dedup
  · rw [if_pos h]
  · rw [if_neg h]
    rw [List.mem_dedup, List.mem_append] at h
    push_neg at h
    rw [evalS_eq_zero a d h.1, evalS_eq_zero b d h.2, add_zero]

/-- Scaling a series scales its value at every date. -/
theorem evalS_scale (w : ℚ) (s : List (ℕ × ℚ)) (d : ℕ) :
    evalS (scaleSeries w s) d = evalS s d * w := by
  induction s with
  | nil => simp [scaleSeries, evalS]
  | cons e t ih =>
    rw [scaleSeries, List.map_cons, evalS_cons, evalS_cons]
    rw [show (scaleSeries w t) = t.map (fun e => (e.1, e.2 * w)) from rfl] at ih
    rw [ih]
    by_cases h : e.1 = d
    · simp [h]
      ring
    · simp [h]

/-- Pointwise value of the cash-flow fold from an arbitrary accumulator. -/
theorem dividendos_combinados_fold (portfolio : List (ℚ × List (ℕ × ℚ))) :
    ∀ (acc : List (ℕ × ℚ)) (d : ℕ),
      evalS (portfolio.foldl combine_step acc) d
        = evalS acc d + (portfolio.map (fun x => x.1 * evalS x.2 d)).sum := by
  induction portfolio with
  | nil => intro acc d; simp
  | cons x t ih =>
    intro acc d
    rw [List.foldl_cons, ih, List.map_cons, List.sum_cons]
    unfold combine_step
    by_cases h : x.2.isEmpty
    · rw [if_pos h, List.isEmpty_iff.mp h]
      simp [evalS]
    · rw [if_neg h, evalS_addSeries, evalS_scale]
      ring

/-- The prompt fold accumulates exactly the matched numerator and
denominator on top of its seed. -/
theorem dyp_fold (dy_dict : List (String × ℚ)) (rows : List (String × ℚ)) :
    ∀ a b : ℚ,
      rows.foldl (dyp_step dy_dict) (a, b)
        = (a + matched_num rows dy_dict, b + matched_den rows dy_dict) := by
  induction rows with
  | nil =>
    intro a b
    simp [matched_num, matched_den, matched_rows]
  | cons r t ih =>
    intro a b
    rw [List.foldl_cons]
    cases hl : lookupW dy_dict r.1 with
    | none =>
      rw [show dyp_step dy_dict (a, b) r = (a, b) by unfold dyp_step; rw [hl], ih]
      unfold matched_num matched_den matched_rows
      rw [List.filter_cons]
      simp [hl]
    | some dy =>
      rw [show dyp_step dy_dict (a, b) r = (a + dy * r.2, b + r.2) by
        unfold dyp_step; rw [hl], ih]
      unfold matched_num matched_den matched_rows
      rw [List.filter_cons]
      simp only [hl, Option.isSome_some, if_pos, List.map_cons, List.sum_cons,
        Option.getD_some, Prod.mk.injEq]
      constructor <;> ring

/-- Looking a ticker up after a dict assignment. -/
theorem lookupW_upsert (m : List (String × ℚ)) (k : String) (v : ℚ) (t : String) :
    lookupW (upsert m k v) t = if k = t then some v else lookupW m t := by
  induction m with
  | nil =>
    by_cases h : k = t <;> simp [upsert, lookupW, h]
  | cons e rest ih =>
    by_cases h : e.1 = k
    · rw [upsert, if_pos h]
      by_cases ht : k = t
      · simp [lookupW, ht]
      · have het : ¬ e.1 = t := fun hh => ht (h ▸ hh)
        simp [lookupW, ht, het]
    · rw [upsert, if_neg h]
      by_cases het : e.1 = t
      · have : ¬ k = t := fun hh => h (het.trans hh.symm)
        simp [lookupW, het, this]
      · simp [lookupW, het, ih]

/-- Lookup into the loader fold: the last valid row for the ticker wins,
falling back to the seed dict. -/
theorem loadRows_lookup_aux (rows : List (String × Option ℚ)) :
    ∀ (m : List (String × ℚ)) (tot : ℚ) (t : String),
      lookupW ((rows.foldl loadStep (m, tot)).1) t
        = (lastValidWeight rows t).elim (lookupW m t) some := by
  induction rows with
  | nil =>
    intro m tot t
    simp [lastValidWeight]
  | cons r rest ih =>
    intro m tot t
    rw [List.foldl_cons]
    cases hr : r.2 with
    | none =>
      rw [show loadStep (m, tot) r = (m, tot) by unfold loadStep; rw [hr], ih]
      cases hlv : lastValidWeight rest t <;> simp [lastValidWeight, hlv, hr]
    | some p =>
      by_cases hp : 0 < p
      · rw [show loadStep (m, tot) r = (upsert m r.1 p, tot + p) by
          simp [loadStep, hr, hp], ih]
        cases hlv : lastValidWeight rest t with
        | some q => simp [lastValidWeight, hlv, hr]
        | none =>
          simp only [lastValidWeight, hlv, hr, hp, if_pos, Option.elim]
          rw [lookupW_upsert]
          by_cases ht : r.1 = t <;> simp [ht, hp]
      · rw [show loadStep (m, tot) r = (m, tot) by
          simp [loadStep, hr, hp], ih]
        cases hlv : lastValidWeight rest t with
        | some q => simp [lastValidWeight, hlv, hr]
        | none =>
          simp only [lastValidWeight, hlv, hr, Option.elim]
          by_cases ht : r.1 = t <;> simp [ht, hp]

/-- The running total of the loader fold accumulates every valid weight. -/
theorem loadRows_total_aux (rows : List (String × Option ℚ)) :
    ∀ (m : List (String × ℚ)) (tot : ℚ),
      (rows.foldl loadStep (m, tot)).2 = tot + validWeightsSum rows := by
  induction rows with
  | nil =>
    intro m tot
    simp [validWeightsSum]
  | cons r rest ih =>
    intro m tot
    rw [List.foldl_cons]
    cases hr : r.2 with
    | none =>
      rw [show loadStep (m, tot) r = (m, tot) by unfold loadStep; rw [hr], ih]
      unfold validWeightsSum
      rw [List.filterMap_cons]
      simp [hr, validWeightsSum]
    | some p =>
      by_cases hp : 0 < p
      · rw [show loadStep (m, tot) r = (upsert m r.1 p, tot + p) by
          simp [loadStep, hr, hp], ih]
        unfold validWeightsSum
        rw [List.filterMap_cons]
        simp [hr, hp, validWeightsSum]
        ring
      · rw [show loadStep (m, tot) r = (m, tot) by
          simp [loadStep, hr, hp], ih]
        unfold validWeightsSum
        rw [List.filterMap_cons]
        simp [hr, hp, validWeightsSum]

/-- Inserting into a dict whose keys avoid `k` adds the new weight to the
stored total. -/
theorem peso_total_upsert (m : List (String × ℚ)) (k : String) (v : ℚ)
    (h : k ∉ m.map (fun e => e.1)) :
    peso_total (upsert m k v) = peso_total m + v := by
  induction m with
  | nil => simp [upsert, peso_total]
  | cons e rest ih =>
    simp only [List.map_cons, List.mem_cons] at h
    push_neg at h
    rw [upsert, if_neg (fun hh => h.1 hh.symm)]
    simp only [peso_total, List.map_cons, List.sum_cons] at *
    rw [ih h.2]
    ring

/-- Keys after an upsert come from the new key or the old dict. -/
theorem mem_keys_upsert (m : List (String × ℚ)) (k : String) (v : ℚ) (a : String)
    (h : a ∈ (upsert m k v).map (fun e => e.1)) :
    a = k ∨ a ∈ m.map (fun e => e.1) := by
  induction m with
  | nil => simpa [upsert] using h
  | cons e rest ih =>
    rw [upsert] at h
    by_cases he : e.1 = k
    · rw [if_pos he] at h
      simp only [List.map_cons, List.mem_cons] at h ⊢
      tauto
    · rw [if_neg he] at h
      simp only [List.map_cons, List.mem_cons] at h ⊢
      rcases h with h | h
      · tauto
      · rcases ih h with h | h <;> tauto

/-- When the valid rows carry pairwise-distinct tickers, the weights stored
by the loader fold sum to the total of all valid weights. -/
theorem loadRows_pesoTotal_aux (rows : List (String × Option ℚ)) :
    ∀ (m : List (String × ℚ)) (tot : ℚ),
      ((rows.filter isValidRow).map (fun r => r.1)).Nodup →
      (∀ a ∈ (rows.filter isValidRow).map (fun r => r.1), a ∉ m.map (fun e => e.1)) →
      peso_total ((rows.foldl loadStep (m, tot)).1)
        = peso_total m + validWeightsSum rows := by
  induction rows with
  | nil =>
    intro m tot _ _
    simp [validWeightsSum, peso_total]
  | cons r rest ih =>
    intro m tot hnd hdisj
    rw [List.foldl_cons]
    cases hr : r.2 with
    | none =>
      have hv : isValidRow r = false := by simp [isValidRow, hr]
      rw [show loadStep (m, tot) r = (m, tot) by simp [loadStep, hr]]
      rw [List.filter_cons_of_neg (by simp [hv])] at hnd hdisj
      rw [ih m tot hnd hdisj]
      unfold validWeightsSum
      rw [List.filterMap_cons]
      simp [hr, validWeightsSum]
    | some p =>
      by_cases hp : 0 < p
      · have hv : isValidRow r = true := by simp [isValidRow, hr, hp]
        rw [show loadStep (m, tot) r = (upsert m r.1 p, tot + p) by
          simp [loadStep, hr, hp]]
        rw [List.filter_cons_of_pos (by simp [hv])] at hnd hdisj
        simp only [List.map_cons, List.nodup_cons] at hnd
        have hdisj2 : ∀ a ∈ (rest.filter isValidRow).map (fun r => r.1),
            a ∉ (upsert m r.1 p).map (fun e => e.1) := by
          intro a ha hmem
          rcases mem_keys_upsert m r.1 p a hmem with h | h
          · exact hnd.1 (h ▸ ha)
          · exact hdisj a (List.mem_cons_of_mem _ ha) h
        rw [ih (upsert m r.1 p) (tot + p) hnd.2 hdisj2]
        rw [peso_total_upsert m r.1 p (hdisj r.1 (List.mem_cons_self _ _))]
        simp only [validWeightsSum, List.filterMap_cons, hr, hp, if_pos,
          List.sum_cons]
        ring
      · have hv : isValidRow r = false := by simp [isValidRow, hr, hp]
        rw [show loadStep (m, tot) r = (m, tot) by simp [loadStep, hr, hp]]
        rw [List.filter_cons_of_neg (by simp [hv])] at hnd hdisj
        rw [ih m tot hnd hdisj]
        unfold validWeightsSum
        rw [List.filterMap_cons]
        simp [hr, hp, validWeightsSum]

/-- Loader invariant: the running total stays nonnegative, and it is
positive whenever the dict is nonempty. -/
theorem loadRows_pos_aux (rows : List (String × Option ℚ)) :
    ∀ (m : List (String × ℚ)) (tot : ℚ), 0 ≤ tot → (0 < tot ∨ m = []) →
      0 ≤ (rows.foldl loadStep (m, tot)).2 ∧
      (0 < (rows.foldl loadStep (m, tot)).2 ∨ (rows.foldl loadStep (m, tot)).1 = []) := by
  induction rows with
  | nil =>
    intro m tot h1 h2
    exact ⟨h1, h2⟩
  | cons r rest ih =>
    intro m tot h1 h2
    rw [List.foldl_cons]
    cases hr : r.2 with
    | none =>
      rw [show loadStep (m, tot) r = (m, tot) by simp [loadStep, hr]]
      exact ih m tot h1 h2
    | some p =>
      by_cases hp : 0 < p
      · rw [show loadStep (m, tot) r = (upsert m r.1 p, tot + p) by
          simp [loadStep, hr, hp]]
        exact ih _ _ (by linarith) (Or.inl (by linarith))
      · rw [show loadStep (m, tot) r = (m, tot) by simp [loadStep, hr, hp]]
        exact ih m tot h1 h2

/-- Dividing every stored weight divides the stored total. -/
theorem peso_total_scale (m : List (String × ℚ)) (c : ℚ) :
    peso_total (m.map (fun e => (e.1, e.2 / c))) = peso_total m / c := by
  induction m with
  | nil => simp [peso_total]
  | cons e rest ih =>
    simp only [peso_total, List.map_cons, List.map_map, List.sum_cons] at *
    rw [ih]
    ring

/-- Sum of a constant minus a function over a list. -/
theorem sum_map_const_sub (l : List ℚ) (c : ℚ) (g : ℚ → ℚ) :
    (l.map (fun p => c - g p)).sum = l.length * c - (l.map g).sum := by
  induction l with
  | nil => simp
  | cons x t ih =>
    simp only [List.map_cons, List.sum_cons, List.length_cons, ih]
    push_cast
    ring

end AppDividendos

namespace AppDividendos

/-! ## Claim theorems -/

/-- Claim C1 (code evaluated at the failing input): a ticker whose fetched
price is missing but which paid 5.0 of dividends in the last year is stored
in `dividend_yields_dict` as `0`, exactly the value stored for a ticker with
price 100 and zero dividends — the yield chart and the prompt yield map
cannot distinguish the two. Only the table cell shows "N/A" for a falsy
price, and a negative price even shows `0.00` there. -/
theorem dy_missing_price_indistinguishable_from_zero :
    dy_entry none 5 = 0 ∧ dy_entry (some 100) 0 = 0 ∧
    tabela_dy none 5 = none ∧ tabela_dy (some (-1)) 5 = some 0 := by
  norm_num [dy_entry, tabela_dy]

/-- Claim C2 (code evaluated at the failing input): with one portfolio
column dated day 0 and a benchmark column dated day 1 the date intersection
is empty, the pre-normalization guard still passes (the column frame is
nonempty), and the base-100 normalization divides by the first row of an
empty frame — an uncaught index error, not an explicit report. -/
theorem desempenho_empty_intersection_raises :
    desempenho_carteira [("AAAA", [(0, 10)])] [(1, 20)]
      = some (Except.error "IndexError") := by
  simp [desempenho_carteira, dados_normalizados, dados_combinados, common_dates,
    sortDates, insertSorted, evalS]

/-- Claim C3 counterexample: an upload whose two valid rows both carry
ticker A with weight 0.5 yields a nonempty mapping whose weights sum to 0.5:
the raw sum 1.0 is within the 0.01 tolerance so no rescaling fires, yet the
stored sum misses 1.0 by 0.5. -/
theorem carteira_duplicate_ticker_breaks_weight_sum :
    ¬ (carteira_acoes [("A", some (1/2)), ("A", some (1/2))] = [] ∨
       |peso_total (carteira_acoes [("A", some (1/2)), ("A", some (1/2))]) - 1|
         ≤ 1/100) := by
  simp [carteira_acoes, loadRows, loadStep, upsert, peso_total]
  norm_num [abs_le, lt_abs]

/-- Claim C3 (amended): for an upload whose valid rows carry pairwise
distinct tickers, the loaded mapping is empty or its weights sum to 1.0
within 0.01 (exactly 1 whenever the rescaling branch fires). -/
theorem carteira_distinct_tickers_weight_sum (rows : List (String × Option ℚ))
    (hn : ((rows.filter isValidRow).map (fun r => r.1)).Nodup) :
    carteira_acoes rows = [] ∨
      |peso_total (carteira_acoes rows) - 1| ≤ 1 / 100 := by
  have hsum : peso_total (loadRows rows).1 = validWeightsSum rows := by
    have h := loadRows_pesoTotal_aux rows [] 0 hn (by simp)
    rw [loadRows, h]
    simp [peso_total]
  have htot : (loadRows rows).2 = validWeightsSum rows := by
    have h := loadRows_total_aux rows [] 0
    rw [loadRows, h]
    simp
  have hkey : peso_total (loadRows rows).1 = (loadRows rows).2 := by
    rw [hsum, htot]
  have hpos := loadRows_pos_aux rows [] 0 le_rfl (Or.inr rfl)
  unfold carteira_acoes
  split_ifs with h1 h2
  · right
    have ht : (loadRows rows).2 ≠ 0 := ne_of_gt h1.1
    rw [peso_total_scale, hkey, div_self ht]
    norm_num
  · left
    rfl
  · by_cases hm : (loadRows rows).1 = []
    · left
      exact hm
    · right
      have h0 : 0 < (loadRows rows).2 := by
        rcases hpos.2 with h | h
        · rw [loadRows]
          exact h
        · rw [loadRows] at hm
          exact absurd h hm
      rw [hkey]
      push_neg at h1
      exact h1 h0

/-- Claim C3 witness: the spec's own example, weights 50/30/20, loads to a
mapping summing to 1.0 after rescaling. -/
theorem carteira_distinct_tickers_weight_sum_witness :
    carteira_acoes [("A", some 50), ("B", some 30), ("C", some 20)] = [] ∨
      |peso_total (carteira_acoes
        [("A", some 50), ("B", some 30), ("C", some 20)]) - 1| ≤ 1/100 :=
  carteira_distinct_tickers_weight_sum
    [("A", some 50), ("B", some 30), ("C", some 20)] (by decide)

/-- Claim C4: whenever the series clears every guard (at least two data
points, nonempty window, positive earliest-year and latest-year totals,
distinct years), the computed growth rate is exactly
(latest total / earliest total) ^ (1 / year span) - 1; and when the totals
are 10 and 20 over a 2-year span the value is sqrt 2 - 1, whose two-decimal
percentage display is 41.42. -/
theorem crescimento_cagr_formula (s : List (ℕ × ℚ)) (hoje years : ℕ)
    (hlen : 2 ≤ s.length) (hw : filtered_window s hoje years ≠ [])
    (hi : 0 < total_dividendo_inicio s hoje years)
    (hf : 0 < total_dividendo_fim s hoje years)
    (hy : primeiro_ano s hoje years ≠ ultimo_ano s hoje years) :
    calcular_crescimento_dividendos s hoje years
      = some (((total_dividendo_fim s hoje years
            / total_dividendo_inicio s hoje years : ℚ) : ℝ)
          ^ ((1 : ℝ) / ((ultimo_ano s hoje years - primeiro_ano s hoje years : ℕ) : ℝ))
          - 1)
    ∧ (total_dividendo_inicio s hoje years = 10 →
       total_dividendo_fim s hoje years = 20 →
       ultimo_ano s hoje years - primeiro_ano s hoje years = 2 →
       calcular_crescimento_dividendos s hoje years = some (Real.sqrt 2 - 1)
       ∧ display2dec (100 * (Real.sqrt 2 - 1)) = 2071 / 50) := by
  have hval : calcular_crescimento_dividendos s hoje years
      = some (((total_dividendo_fim s hoje years
            / total_dividendo_inicio s hoje years : ℚ) : ℝ)
          ^ ((1 : ℝ) / ((ultimo_ano s hoje years - primeiro_ano s hoje years : ℕ) : ℝ))
          - 1) := by
    rw [calcular_crescimento_dividendos,
      crescimento_core_eq_some s hoje years hlen hw hi hf hy]
    rfl
  refine ⟨hval, fun e1 e2 e3 => ⟨?_, display2dec_sqrt2⟩⟩
  rw [hval, e1, e2, e3]
  have h1 : ((20 / 10 : ℚ) : ℝ) = 2 := by norm_num
  have h2 : ((1 : ℝ) / ((2 : ℕ) : ℝ)) = 1 / 2 := by norm_num
  rw [h1, h2, Real.sqrt_eq_rpow]

/-- Claim C4 witness: a series paying 10 in year 8 and 20 in year 10,
viewed from day 3650 with a 5-year lookback, returns sqrt 2 - 1, displayed
as 41.42. -/
theorem crescimento_cagr_formula_witness :
    calcular_crescimento_dividendos [(2920, 10), (3650, 20)] 3650 5
      = some (Real.sqrt 2 - 1)
    ∧ display2dec (100 * (Real.sqrt 2 - 1)) = 2071 / 50 :=
  (crescimento_cagr_formula [(2920, 10), (3650, 20)] 3650 5
    (by norm_num)
    (by simp [filtered_window])
    (by simp [total_dividendo_inicio, filtered_window, primeiro_ano, minDate, yearOf])
    (by simp [total_dividendo_fim, filtered_window, ultimo_ano, maxDate, yearOf])
    (by simp [primeiro_ano, ultimo_ano, filtered_window, minDate, maxDate, yearOf])).2
    (by simp [total_dividendo_inicio, filtered_window, primeiro_ano, minDate, yearOf])
    (by simp [total_dividendo_fim, filtered_window, ultimo_ano, maxDate, yearOf])
    (by simp [primeiro_ano, ultimo_ano, filtered_window, minDate, maxDate, yearOf])

/-- Claim C5: the growth computation returns "N/A" exactly when the series
has fewer than two data points, or the lookback window holds no entry, or
the earliest-year or latest-year total is nonpositive, or the earliest and
latest years in the window coincide. -/
theorem crescimento_unavailable_iff (s : List (ℕ × ℚ)) (hoje years : ℕ) :
    calcular_crescimento_dividendos s hoje years = none ↔
      s.length < 2 ∨ filtered_window s hoje years = [] ∨
      total_dividendo_inicio s hoje years ≤ 0 ∨
      total_dividendo_fim s hoje years ≤ 0 ∨
      primeiro_ano s hoje years = ultimo_ano s hoje years := by
  rw [calcular_crescimento_dividendos, Option.map_eq_none']
  unfold crescimento_core
  split_ifs with h1 h2 h3 h4
  · simp only [true_iff]
    rcases h1 with h | h
    · have : s = [] := List.isEmpty_iff.mp h
      left
      simp [this]
    · exact Or.inl h
  · simp only [true_iff]
    exact Or.inr (Or.inl h2)
  · simp only [true_iff]
    rcases h3 with h | h | h
    · exact Or.inr (Or.inr (Or.inl h))
    · exact Or.inr (Or.inr (Or.inr (Or.inl h)))
    · have hle := primeiro_le_ultimo s hoje years h2
      right; right; right; right
      omega
  · push_neg at h3
    obtain ⟨hti, htf, hn⟩ := h3
    simp only [reduceCtorEq, false_iff]
    push_neg at h1
    intro hcon
    rcases hcon with h | h | h | h | h
    · exact absurd h (by omega)
    · exact absurd h h2
    · exact absurd h (not_le.mpr hti)
    · exact absurd h (not_le.mpr htf)
    · omega
  · push_neg at h3
    obtain ⟨hti, htf, hn⟩ := h3
    exfalso
    omega

/-- Claim C6: for a fetched price P greater than zero, the stored trailing
yield is the 365-day dividend total divided by P, times 100. -/
theorem dy_formula_for_positive_price (dividends : List (ℕ × ℚ)) (hoje : ℕ)
    (p : ℚ) (hp : 0 < p) :
    dy_entry (some p) (dividendos_12m dividends hoje)
      = dividendos_12m dividends hoje / p * 100 := by
  simp [dy_entry, hp]

/-- Claim C6 witness: a single payment of 3 inside the window with price 50
yields 6 percent. -/
theorem dy_formula_for_positive_price_witness :
    dy_entry (some 50) (dividendos_12m [(100, 3)] 400) = 6 := by
  rw [dy_formula_for_positive_price [(100, 3)] 400 50 (by norm_num)]
  simp [dividendos_12m]
  norm_num

/-- Claim C7 counterexample: three equal uploaded weights load as one third
each, the displayed current weights round to 33 percent each, and the
rebalancing differences sum to 1 percentage point, not 0. -/
theorem rebalanceamento_diff_sum_counterexample :
    ((rebalanceamento ((carteira_acoes
        [("A", some 1), ("B", some 1), ("C", some 1)]).map (fun e => e.2))).map
      (fun r => r.2.2)).sum ≠ 0 := by
  have hc : (carteira_acoes [("A", some 1), ("B", some 1), ("C", some 1)]).map
      (fun e => e.2) = [1/3, 1/3, 1/3] := by
    simp [carteira_acoes, loadRows, loadStep, upsert]
    norm_num
  rw [hc]
  have hr : roundHalfEven ((3:ℚ)⁻¹ * 100) = 33 := by
    unfold roundHalfEven
    norm_num
  simp [rebalanceamento, peso_display_pct, hr]
  norm_num

/-- Claim C7 (amended): every suggestion row carries the equal target
100/N percent and the signed difference target minus current; the
differences sum to 100 minus the sum of the rounded displayed current
percents — zero exactly when those integer percents sum to 100, as with
four equal positions, but not in general. -/
theorem rebalanceamento_target_and_diff_sum (pesos : List ℚ) (h : pesos ≠ []) :
    (∀ r ∈ rebalanceamento pesos,
        r.2.1 = 1 / (pesos.length : ℚ) * 100 ∧ r.2.2 = r.2.1 - r.1)
    ∧ ((rebalanceamento pesos).map (fun r => r.2.2)).sum
        = 100 - (pesos.map (fun p => (peso_display_pct p : ℚ))).sum := by
  constructor
  · intro r hr
    unfold rebalanceamento at hr
    rcases List.mem_map.mp hr with ⟨p, hp, rfl⟩
    exact ⟨rfl, rfl⟩
  · unfold rebalanceamento
    rw [List.map_map]
    have heq : ((fun r : ℚ × ℚ × ℚ => r.2.2) ∘ fun p =>
        ((peso_display_pct p : ℚ),
         1 / (pesos.length : ℚ) * 100,
         1 / (pesos.length : ℚ) * 100 - (peso_display_pct p : ℚ)))
        = fun p => 1 / (pesos.length : ℚ) * 100 - (peso_display_pct p : ℚ) := rfl
    rw [heq, sum_map_const_sub]
    have hn : (pesos.length : ℚ) ≠ 0 := by
      have := List.length_pos.mpr h
      exact_mod_cast Nat.pos_iff_ne_zero.mp this
    field_simp

/-- Claim C7 witness: four equal quarters give target 25 percent each and
differences summing to zero. -/
theorem rebalanceamento_target_and_diff_sum_witness :
    ((rebalanceamento [(1:ℚ)/4, 1/4, 1/4, 1/4]).map (fun r => r.2.2)).sum = 0 := by
  have h := (rebalanceamento_target_and_diff_sum [(1:ℚ)/4, 1/4, 1/4, 1/4]
    (by simp)).2
  rw [h]
  have hr : roundHalfEven ((4:ℚ)⁻¹ * 100) = 25 := by
    unfold roundHalfEven
    norm_num
  simp [peso_display_pct, hr]
  norm_num

/-- Claim C8: the combined weighted cash-flow series is additive per date:
at every date it equals the sum over positions of weight times that
position's amount at the date, a missing date contributing 0. -/
theorem dividendos_combinados_additive_per_date
    (portfolio : List (ℚ × List (ℕ × ℚ))) (d : ℕ) :
    evalS (dividendos_combinados portfolio) d
      = (portfolio.map (fun x => x.1 * evalS x.2 d)).sum := by
  rw [dividendos_combinados, dividendos_combinados_fold]
  simp [evalS]

/-- Claim C9: the weighted portfolio yield placed in the prompt is the sum
of yield times weight over the rows matched in the yield map, divided by the
sum of the matched weights when that sum is positive, else 0. -/
theorem dy_ponderado_matched_average (df_rows dy_dict : List (String × ℚ)) :
    dy_ponderado_final df_rows dy_dict
      = if 0 < matched_den df_rows dy_dict
        then matched_num df_rows dy_dict / matched_den df_rows dy_dict
        else 0 := by
  unfold dy_ponderado_final
  rw [dyp_fold]
  simp

/-- Claim C10: the loader maps each ticker to the weight of its last valid
row (earlier duplicates overwritten) while the normalization denominator
accumulates the weight of every valid row, duplicates included. -/
theorem loader_last_weight_and_full_total (rows : List (String × Option ℚ))
    (t : String) :
    lookupW (loadRows rows).1 t = lastValidWeight rows t
    ∧ (loadRows rows).2 = validWeightsSum rows := by
  constructor
  · rw [loadRows, loadRows_lookup_aux]
    cases lastValidWeight rows t <;> simp [lookupW]
  · rw [loadRows, loadRows_total_aux]
    simp

end AppDividendos
